import Mathlib

/-!
# RinseList core pipeline: shallow embedding and verification

This file embeds the core data-processing pipeline of the RinseList
repository (TypeScript) into Lean 4 and proves the specification claims
about it.  The embedded modules are:

* `src/lib/email.ts`   — `isValidEmail`, `normalizeEmail`
* `src/lib/matcher.ts` — `matchAndClean`
* `src/lib/parser.ts`  — `detectEmailColumn`, `parseFile`, `rowsToCSV`
* `src/lib/audit.ts`   — `generateAuditReport`
* `src/lib/zip.ts`     — `createZip` (entry-name level)
* `src/lib/worker.ts`  — `detectSameFile`, `processInWorker`

JavaScript strings are modelled by `String`, with trimming and
lowercasing defined explicitly over the character list so that all
definitions compute by kernel reduction.  JavaScript objects
(`Record<string, string>`) are modelled by association lists in which a
later binding for the same key shadows an earlier one, matching the
assignment order of `obj[header] = value`.  A possibly-`undefined`
JavaScript string is modelled by `Option String`.
-/

namespace RinseList

/-! ## String primitives (JavaScript semantics) -/

/-- Whitespace class used by JavaScript `trim` and the regex class `\s`
(restricted to the ASCII whitespace characters, which is what the data
of this pipeline contains). -/
def jsWs (c : Char) : Bool :=
  c == ' ' || c == '\t' || c == '\n' || c == '\r' || c == '\x0b' || c == '\x0c'

/-- Strip leading and trailing whitespace from a character list. -/
def trimChars (cs : List Char) : List Char :=
  ((cs.dropWhile jsWs).reverse.dropWhile jsWs).reverse

/-- Model of JavaScript `String.prototype.trim`. -/
def jsTrim (s : String) : String :=
  String.mk (trimChars s.data)

/-- Model of JavaScript `String.prototype.toLowerCase` (ASCII range). -/
def lowerChars (cs : List Char) : List Char :=
  cs.map Char.toLower

/-- Model of JavaScript `String.prototype.toLowerCase` on strings. -/
def jsLower (s : String) : String :=
  String.mk (lowerChars s.data)

/-- Does `hay` start with `needle`? (character-list version) -/
def startsWithChars : List Char → List Char → Bool
  | [], _ => true
  | _ :: _, [] => false
  | a :: as, b :: bs => a == b && startsWithChars as bs

/-- Does `hay` contain `needle` as a contiguous substring?  Model of
JavaScript `String.prototype.includes`. -/
def containsChars (needle : List Char) : List Char → Bool
  | [] => startsWithChars needle []
  | c :: rest => startsWithChars needle (c :: rest) || containsChars needle rest

/-! ## `src/lib/email.ts` -/

/-- The character class `[^\s@]` of the email regex. -/
def emailChar (c : Char) : Bool :=
  !jsWs c && c != '@'

/-- Matcher for the regex `^[^\s@]+@[^\s@]+\.[^\s@]+$` from
`src/lib/email.ts`.  Since `[^\s@]` excludes `@`, a match decomposes the
input at its unique `@`: a non-empty whitespace-free local part, then a
domain part that is free of whitespace and `@` and contains a `.` at an
interior position (the `[^\s@]+` on either side of the literal `\.`). -/
def matchEmailRegex (cs : List Char) : Bool :=
  match cs.dropWhile (fun c => c != '@') with
  | [] => false
  | _ :: domain =>
    !(cs.takeWhile (fun c => c != '@')).isEmpty &&
      (cs.takeWhile (fun c => c != '@')).all emailChar &&
      !domain.isEmpty && domain.all emailChar &&
      (domain.drop 1).dropLast.contains '.'

/-- Model of `isValidEmail` from `src/lib/email.ts`: reject empty input,
trim, reject whitespace-only input, then test the permissive regex. -/
def isValidEmail (email : String) : Bool :=
  if email == "" then false
  else if (jsTrim email).data.length == 0 then false
  else matchEmailRegex (jsTrim email).data

/-- `isValidEmail` applied to a possibly-`undefined` value: the
`!email` guard makes `undefined` invalid. -/
def isValidEmailOpt : Option String → Bool
  | none => false
  | some s => isValidEmail s

/-- Model of `normalizeEmail` from `src/lib/email.ts`: empty input
normalizes to the empty string, otherwise trim then lowercase. -/
def normalizeEmail (email : String) : String :=
  if email == "" then "" else jsLower (jsTrim email)

/-- `normalizeEmail` applied to a possibly-`undefined` value: the
`!email` guard sends `undefined` to the empty string. -/
def normalizeEmailOpt : Option String → String
  | none => ""
  | some s => normalizeEmail s

/-! ## Row records and parsed files -/

/-- A row record (`Record<string, string>` in the source): an
association list of column-name/value bindings, where a later binding
for the same key shadows an earlier one. -/
def Row : Type := List (String × String)

instance : DecidableEq Row := by
  unfold Row; exact inferInstance

/-- Key lookup in a row record; `none` models JavaScript `undefined`.
The latest binding wins, matching object assignment order. -/
def rowGet (r : Row) (key : String) : Option String :=
  (r.reverse.find? (fun p => p.1 == key)).map Prod.snd

/-- Model of the `ParsedFile` interface from `src/lib/parser.ts`. -/
structure ParsedFile where
  headers : List String
  rows : List Row
  emailColumnIndex : Nat
  emailColumnName : String
  hasMultipleSheets : Bool
deriving DecidableEq

/-! ## `src/lib/matcher.ts` -/

/-- Model of the `RemovalReason` union type. -/
inductive RemovalReason where
  | suppressed
  | invalid
deriving DecidableEq

/-- Model of the `RemovedRow` interface. `email` is the raw cell value,
possibly `undefined`. -/
structure RemovedRow where
  originalRowNumber : Nat
  email : Option String
  reason : RemovalReason
  rowData : Row
deriving DecidableEq

/-- The `stats` block of a `MatchResult`. -/
structure MatchStats where
  totalRows : Nat
  cleanedCount : Nat
  suppressedCount : Nat
  invalidCount : Nat
deriving DecidableEq

/-- Model of the `MatchResult` interface. -/
structure MatchResult where
  cleanedRows : List Row
  removedRows : List RemovedRow
  stats : MatchStats
deriving DecidableEq

/-- The options record taken by `matchAndClean`. -/
structure MatchOptions where
  removeInvalidEmails : Bool
deriving DecidableEq

/-- The suppression set built at the top of `matchAndClean`: the
normalized value of every truthy (non-`undefined`, non-empty) cell of
the suppression table's email column.  Membership in the JavaScript
`Set` is membership in this list. -/
def suppressionEmails (suppressionList : ParsedFile) : List String :=
  suppressionList.rows.filterMap (fun row =>
    match rowGet row suppressionList.emailColumnName with
    | none => none
    | some s => if s == "" then none else some (normalizeEmail s))

/-- Intermediate state of the `matchAndClean` loop. -/
structure MatchAcc where
  cleanedRows : List Row
  removedRows : List RemovedRow
  suppressedCount : Nat
  invalidCount : Nat
deriving DecidableEq

/-- The row loop of `matchAndClean` (lines 43–75 of
`src/lib/matcher.ts`), processing rows in order starting at index `i`:
a row whose normalized email is in the suppression set is removed as
`suppressed`; otherwise, if `removeInvalidEmails` is on and the raw
email fails `isValidEmail`, it is removed as `invalid`; otherwise it is
kept.  `originalRowNumber = i + 2` (1-based plus header row). -/
def matchGo (emailColumnName : String) (suppressionSet : List String)
    (removeInvalidEmails : Bool) : List Row → Nat → MatchAcc
  | [], _ => ⟨[], [], 0, 0⟩
  | row :: rest, i =>
    let email := rowGet row emailColumnName
    let normalizedEmail := normalizeEmailOpt email
    let originalRowNumber := i + 2
    let acc := matchGo emailColumnName suppressionSet removeInvalidEmails rest (i + 1)
    if suppressionSet.contains normalizedEmail then
      ⟨acc.cleanedRows, ⟨originalRowNumber, email, .suppressed, row⟩ :: acc.removedRows,
        acc.suppressedCount + 1, acc.invalidCount⟩
    else if removeInvalidEmails && !isValidEmailOpt email then
      ⟨acc.cleanedRows, ⟨originalRowNumber, email, .invalid, row⟩ :: acc.removedRows,
        acc.suppressedCount, acc.invalidCount + 1⟩
    else
      ⟨row :: acc.cleanedRows, acc.removedRows, acc.suppressedCount, acc.invalidCount⟩

/-- Model of `matchAndClean` from `src/lib/matcher.ts`. -/
def matchAndClean (contactList suppressionList : ParsedFile)
    (options : MatchOptions) : MatchResult :=
  let suppressionSet := suppressionEmails suppressionList
  let acc := matchGo contactList.emailColumnName suppressionSet
    options.removeInvalidEmails contactList.rows 0
  { cleanedRows := acc.cleanedRows
    removedRows := acc.removedRows
    stats :=
      { totalRows := contactList.rows.length
        cleanedCount := acc.cleanedRows.length
        suppressedCount := acc.suppressedCount
        invalidCount := acc.invalidCount } }

/-! ## `src/lib/parser.ts` -/

/-- The JavaScript regex metacharacter `.` without the `s` (dotall)
flag: any character except a line terminator (`\n`, `\r`, U+2028,
U+2029). -/
def jsDot (c : Char) : Bool :=
  c != '\n' && c != '\r' && c != '\u2028' && c != '\u2029'

/-- Matcher for a regex of shape `^pre.?post$` (with `pre`, `post`
literal): the input is `pre ++ post`, or `pre`, one single character
matched by `.` (any non-line-terminator), then `post`. -/
def sepOptChars (pre post cs : List Char) : Bool :=
  cs == pre ++ post ||
    (cs.length == pre.length + post.length + 1 &&
      cs.take pre.length == pre &&
      jsDot (cs.getD pre.length '\n') &&
      cs.drop (pre.length + 1) == post)

/-- Model of the `EMAIL_COLUMN_PATTERNS` regex array from
`src/lib/parser.ts`.  Each entry is the matcher of one `/.../i` regex,
applied to the already-lowercased header text:
`^email$`, `^e-?mail$`, `^email.?address$`, `^e-?mail.?address$`,
`^subscriber.?email$`, `^contact.?email$`. -/
def EMAIL_COLUMN_PATTERNS : List (List Char → Bool) :=
  [ fun cs => cs == "email".data,
    fun cs => cs == "email".data || cs == "e-mail".data,
    fun cs => sepOptChars "email".data "address".data cs,
    fun cs => sepOptChars "email".data "address".data cs ||
      sepOptChars "e-mail".data "address".data cs,
    fun cs => sepOptChars "subscriber".data "email".data cs,
    fun cs => sepOptChars "contact".data "email".data cs ]

/-- Model of `detectEmailColumn` from `src/lib/parser.ts`: a first pass
returning the first header whose trimmed text matches one of the
patterns, then a second pass returning the first header whose lowercase
text contains the substring `email`; `none` models the `-1` return. -/
def detectEmailColumn (headers : List String) : Option Nat :=
  match headers.findIdx? (fun h =>
      EMAIL_COLUMN_PATTERNS.any (fun p => p (lowerChars (trimChars h.data)))) with
  | some i => some i
  | none => headers.findIdx? (fun h => containsChars "email".data (lowerChars h.data))

/-- Model of the `ParseError` `type` field. -/
inductive ParseErrorType where
  | no_email_column
  | empty_file
  | parse_error
deriving DecidableEq

/-- Model of the `ParseError` interface. -/
structure ParseError where
  type : ParseErrorType
  message : String
deriving DecidableEq

/-- Model of the `ParseResult` union. -/
inductive ParseResult where
  | ok (data : ParsedFile)
  | err (error : ParseError)
deriving DecidableEq

/-- The row-keep test of `parseFile` (line 260):
`row && row.length > 0 && row.some(cell => cell)`, with string-cell
truthiness being non-emptiness. -/
def isKeptRow (row : List String) : Bool :=
  !row.isEmpty && row.any (fun c => c != "")

/-- Row-record construction of `parseFile` (lines 261–266): each cell is
keyed by its header, with a missing cell (`row[i] ?? ""`) coerced to the
empty string.  A duplicate header yields a later binding that shadows
the earlier one, as in the source's object assignment. -/
def buildRecord (headers : List String) (row : List String) : Row :=
  headers.enum.map (fun p => (p.2, row.getD p.1 ""))

/-- Model of `parseFile` from `src/lib/parser.ts` from the `jsonData`
grid onward (lines 207–278): the raw grid produced by the external
spreadsheet reader (`XLSX.read` + `sheet_to_json` with `header: 1`),
one cell string per raw cell.  Checks, in order: empty grid; header
row trimmed and checked non-empty; presence of data rows; email-column
inference; then conversion of the non-blank data rows to records. -/
def parseGrid (jsonData : List (List String)) (hasMultipleSheets : Bool) : ParseResult :=
  match jsonData with
  | [] => .err ⟨.empty_file, "The file appears to be empty."⟩
  | headerRow :: dataRows =>
    let headers := headerRow.map jsTrim
    if headers.isEmpty || headers.all (fun h => h == "") then
      .err ⟨.empty_file, "The file does not contain any column headers."⟩
    else if dataRows.isEmpty then
      .err ⟨.empty_file,
        "The file contains headers but no data rows. Please verify the file has data."⟩
    else
      match detectEmailColumn headers with
      | none => .err ⟨.no_email_column,
          "Could not find an email column in this file. Please ensure your file has a column with email addresses (commonly named 'Email', 'E-mail', or 'Email Address')."⟩
      | some emailColumnIndex =>
        .ok { headers := headers
              rows := (dataRows.filter isKeptRow).map (buildRecord headers)
              emailColumnIndex := emailColumnIndex
              emailColumnName := headers.getD emailColumnIndex ""
              hasMultipleSheets := hasMultipleSheets }

/-- Outcome of the external decoding layer of `parseFile` (lines
187–205): `exn` models a thrown decoding exception (caught as
`parse_error`), `noSheet` models an absent first sheet, and `ok` carries
the cell grid together with the multiple-sheets flag. -/
inductive DecodeResult where
  | exn
  | noSheet
  | ok (grid : List (List String)) (hasMultipleSheets : Bool)

/-- Model of `parseFile` from `src/lib/parser.ts`, parameterized by the
external spreadsheet decoder `decode` (the `XLSX` library is outside
the repository). -/
def parseFile (decode : List Nat → DecodeResult) (buffer : List Nat) : ParseResult :=
  match decode buffer with
  | .exn => .err ⟨.parse_error,
      "Failed to parse the file. Please ensure it's a valid CSV or XLSX file. "⟩
  | .noSheet => .err ⟨.empty_file, "The file appears to be empty or could not be read."⟩
  | .ok grid hasMultipleSheets => parseGrid grid hasMultipleSheets

/-- The `escapeCSV` closure inside `rowsToCSV`: double internal quotes
and wrap in quotes when the field contains a comma, quote, or newline. -/
def expandQuotes : List Char → List Char
  | [] => []
  | c :: rest => if c == '"' then '"' :: '"' :: expandQuotes rest else c :: expandQuotes rest

/-- Model of `escapeCSV` from `src/lib/parser.ts`. -/
def escapeCSV (value : String) : String :=
  if value.data.contains ',' || value.data.contains '"' || value.data.contains '\n' then
    "\"" ++ String.mk (expandQuotes value.data) ++ "\""
  else value

/-- JavaScript `Array.prototype.join` on strings. -/
def joinWith (sep : String) : List String → String
  | [] => ""
  | [x] => x
  | x :: xs => x ++ sep ++ joinWith sep xs

/-- Model of `rowsToCSV` from `src/lib/parser.ts`: the escaped header
line followed by one escaped line per row, newline-joined; a missing or
falsy cell (`row[h] || ""`) serializes as the empty string. -/
def rowsToCSV (headers : List String) (rows : List Row) : String :=
  joinWith "\n"
    (joinWith "," (headers.map escapeCSV) ::
      rows.map (fun row =>
        joinWith "," (headers.map (fun h => escapeCSV ((rowGet row h).getD "")))))

/-! ## `src/lib/audit.ts` -/

/-- Model of `generateAuditReport` from `src/lib/audit.ts`: a
three-column table (`Original Row`, `Email`, `Removal Reason`) built
from the removed rows in order, rendered through `rowsToCSV`.  An
`undefined` email serializes as the empty string (`row[h] || ""` in
`rowsToCSV`). -/
def generateAuditReport (removedRows : List RemovedRow) : String :=
  let headers := ["Original Row", "Email", "Removal Reason"]
  let rows : List Row := removedRows.map (fun row =>
    [("Original Row", toString row.originalRowNumber),
     ("Email", row.email.getD ""),
     ("Removal Reason",
       if row.reason = .suppressed then "Suppressed" else "Invalid Format")])
  rowsToCSV headers rows

/-! ## `src/lib/zip.ts` -/

/-- Model of `createZip` from `src/lib/zip.ts` at the entry-name level:
the archive is the list of its (entry-name, content) pairs.  The
cleaned list is always added under `cleaned-list.csv`; the audit report
is added under `rinse-report.csv` only when present and truthy
(non-empty). -/
def createZip (cleanedListCSV : String) (auditReportCSV : Option String) :
    List (String × String) :=
  [("cleaned-list.csv", cleanedListCSV)] ++
    (match auditReportCSV with
     | some a => if a == "" then [] else [("rinse-report.csv", a)]
     | none => [])

/-! ## `src/lib/worker.ts` -/

/-- Model of the byte-compare loop of `detectSameFile`: with the length
guard already passed, compare position by position. -/
def sameBytes : List Nat → List Nat → Bool
  | x :: xs, y :: ys => x == y && sameBytes xs ys
  | _, _ => true

/-- Model of `detectSameFile` from `src/lib/worker.ts`: lengths first,
then a byte-by-byte comparison. -/
def detectSameFile (contactBuffer suppressionBuffer : List Nat) : Bool :=
  if contactBuffer.length != suppressionBuffer.length then false
  else sameBytes contactBuffer suppressionBuffer

/-- The options record of `WorkerInput`. -/
structure WorkerOptions where
  generateAuditReport : Bool
  removeInvalidEmails : Bool
deriving DecidableEq

/-- Model of the `WorkerInput` interface (buffers as byte lists). -/
structure WorkerInput where
  contactBuffer : List Nat
  contactFileName : String
  suppressionBuffer : List Nat
  suppressionFileName : String
  options : WorkerOptions

/-- Model of a successful `WorkerOutput`, with the ZIP blob represented
by its entry list. -/
structure WorkerOutput where
  zipEntries : List (String × String)
  stats : MatchStats
  contactListHasMultipleSheets : Bool
  suppressionListHasMultipleSheets : Bool
deriving DecidableEq

/-- Model of the `WorkerResult` union. -/
inductive WorkerResult where
  | success (output : WorkerOutput)
  | failure (error : String)
deriving DecidableEq

/-- The same-file failure message of `processInWorker`. -/
def sameFileMessage : String :=
  "The Contact List and Suppression List appear to be the same file. Please upload your Klaviyo suppression list as the Suppression List."

/-- The pipeline of `processInWorker` after the same-file short-circuit:
parse contact list, parse suppression list, match, serialize the
cleaned rows, build the audit report when requested and non-trivial,
and bundle the archive. -/
def processParsed (decode : List Nat → DecodeResult) (input : WorkerInput) : WorkerResult :=
  match parseFile decode input.contactBuffer with
  | .err e => .failure ("Contact List: " ++ e.message)
  | .ok contactData =>
    match parseFile decode input.suppressionBuffer with
    | .err e => .failure ("Suppression List: " ++ e.message)
    | .ok suppressionData =>
      let matchResult := matchAndClean contactData suppressionData
        ⟨input.options.removeInvalidEmails⟩
      let cleanedCSV := rowsToCSV contactData.headers matchResult.cleanedRows
      let auditCSV : Option String :=
        if input.options.generateAuditReport && !matchResult.removedRows.isEmpty then
          some (generateAuditReport matchResult.removedRows)
        else none
      .success
        { zipEntries := createZip cleanedCSV auditCSV
          stats := matchResult.stats
          contactListHasMultipleSheets := contactData.hasMultipleSheets
          suppressionListHasMultipleSheets := suppressionData.hasMultipleSheets }

/-- Model of `processInWorker` from `src/lib/worker.ts`, parameterized
by the external spreadsheet decoder. -/
def processInWorker (decode : List Nat → DecodeResult) (input : WorkerInput) : WorkerResult :=
  if detectSameFile input.contactBuffer input.suppressionBuffer then
    .failure sameFileMessage
  else
    processParsed decode input

/-! ## Lemmas about the matcher loop -/

theorem matchGo_counts (col : String) (set : List String) (inv : Bool)
    (rows : List Row) (i : Nat) :
    rows.length = (matchGo col set inv rows i).cleanedRows.length +
        (matchGo col set inv rows i).suppressedCount +
        (matchGo col set inv rows i).invalidCount ∧
      (matchGo col set inv rows i).removedRows.length =
        (matchGo col set inv rows i).suppressedCount +
          (matchGo col set inv rows i).invalidCount := by
  induction rows generalizing i with
  | nil => simp [matchGo]
  | cons row rest ih =>
    obtain ⟨h1, h2⟩ := ih (i + 1)
    simp only [matchGo]
    split
    · simp only [List.length_cons]
      omega
    · split
      · simp only [List.length_cons]
        omega
      · simp only [List.length_cons]
        omega

theorem matchGo_cleaned_spec (col : String) (set : List String) (inv : Bool) :
    ∀ (rows : List Row) (i : Nat) (row : Row),
      row ∈ (matchGo col set inv rows i).cleanedRows →
      set.contains (normalizeEmailOpt (rowGet row col)) = false := by
  intro rows
  induction rows with
  | nil => intro i row h; simp [matchGo] at h
  | cons r rest ih =>
    intro i row h
    simp only [matchGo] at h
    split at h
    · exact ih (i + 1) row h
    · split at h
      · exact ih (i + 1) row h
      · rcases List.mem_cons.mp h with rfl | h'
        · rename_i hc _
          simpa using hc
        · exact ih (i + 1) row h'

theorem matchGo_sublists (col : String) (set : List String) (inv : Bool) :
    ∀ (rows : List Row) (i : Nat),
      (matchGo col set inv rows i).cleanedRows.Sublist rows ∧
      ((matchGo col set inv rows i).removedRows.map RemovedRow.rowData).Sublist rows := by
  intro rows
  induction rows with
  | nil => intro i; simp [matchGo]
  | cons r rest ih =>
    intro i
    obtain ⟨ih1, ih2⟩ := ih (i + 1)
    simp only [matchGo]
    split
    · exact ⟨ih1.cons r, by simpa using ih2.cons₂ r⟩
    · split
      · exact ⟨ih1.cons r, by simpa using ih2.cons₂ r⟩
      · exact ⟨ih1.cons₂ r, ih2.cons r⟩

theorem matchGo_suppressed_mem (col : String) (set : List String) (inv : Bool) :
    ∀ (rows : List Row) (i j : Nat) (row : Row),
      rows.get? j = some row →
      set.contains (normalizeEmailOpt (rowGet row col)) = true →
      (⟨i + j + 2, rowGet row col, RemovalReason.suppressed, row⟩ : RemovedRow) ∈
        (matchGo col set inv rows i).removedRows := by
  intro rows
  induction rows with
  | nil => intro i j row h; simp at h
  | cons r rest ih =>
    intro i j row hget hc
    cases j with
    | zero =>
      obtain rfl : r = row := by simpa using hget
      simp only [matchGo, hc, if_true]
      exact List.mem_cons_self _ _
    | succ j =>
      have hget' : rest.get? j = some row := by simpa using hget
      have hmem := ih (i + 1) j row hget' hc
      have hnum : i + 1 + j + 2 = i + (j + 1) + 2 := by omega
      rw [hnum] at hmem
      simp only [matchGo]
      split
      · exact List.mem_cons_of_mem _ hmem
      · split
        · exact List.mem_cons_of_mem _ hmem
        · exact hmem

theorem matchGo_removed_spec (col : String) (set : List String) (inv : Bool) :
    ∀ (rows : List Row) (i : Nat) (rr : RemovedRow),
      rr ∈ (matchGo col set inv rows i).removedRows →
      ∃ j, rows.get? j = some rr.rowData ∧ rr.originalRowNumber = i + j + 2 ∧
        rr.email = rowGet rr.rowData col ∧
        ((rr.reason = .suppressed ∧
            set.contains (normalizeEmailOpt rr.email) = true) ∨
         (rr.reason = .invalid ∧
            set.contains (normalizeEmailOpt rr.email) = false ∧
            inv = true ∧ isValidEmailOpt rr.email = false)) := by
  intro rows
  induction rows with
  | nil => intro i rr h; simp [matchGo] at h
  | cons r rest ih =>
    intro i rr h
    simp only [matchGo] at h
    have step : ∀ rr', rr' ∈ (matchGo col set inv rest (i + 1)).removedRows →
        ∃ j, (r :: rest).get? j = some rr'.rowData ∧
          rr'.originalRowNumber = i + j + 2 ∧
          rr'.email = rowGet rr'.rowData col ∧
          ((rr'.reason = .suppressed ∧
              set.contains (normalizeEmailOpt rr'.email) = true) ∨
           (rr'.reason = .invalid ∧
              set.contains (normalizeEmailOpt rr'.email) = false ∧
              inv = true ∧ isValidEmailOpt rr'.email = false)) := by
      intro rr' h'
      obtain ⟨j, hj, hnum, hmail, hcase⟩ := ih (i + 1) rr' h'
      exact ⟨j + 1, by simpa using hj, by omega, hmail, hcase⟩
    split at h
    · rcases List.mem_cons.mp h with rfl | h'
      · rename_i hc
        exact ⟨0, rfl, by simp, rfl, Or.inl ⟨rfl, hc⟩⟩
      · exact step rr h'
    · split at h
      · rcases List.mem_cons.mp h with rfl | h'
        · rename_i hc hv
          rw [Bool.and_eq_true, Bool.not_eq_true'] at hv
          exact ⟨0, rfl, by simp, rfl,
            Or.inr ⟨rfl, by simpa using hc, hv.1, hv.2⟩⟩
        · exact step rr h'
      · exact step rr h

theorem matchGo_kept_mem (col : String) (set : List String) (inv : Bool) :
    ∀ (rows : List Row) (i j : Nat) (row : Row),
      rows.get? j = some row →
      set.contains (normalizeEmailOpt (rowGet row col)) = false →
      (inv && !isValidEmailOpt (rowGet row col)) = false →
      row ∈ (matchGo col set inv rows i).cleanedRows := by
  intro rows
  induction rows with
  | nil => intro i j row h; simp at h
  | cons r rest ih =>
    intro i j row hget hc hv
    cases j with
    | zero =>
      obtain rfl : r = row := by simpa using hget
      simp only [matchGo, hc, hv, Bool.false_eq_true, if_false]
      exact List.mem_cons_self _ _
    | succ j =>
      have hget' : rest.get? j = some row := by simpa using hget
      have hmem := ih (i + 1) j row hget' hc hv
      simp only [matchGo]
      split
      · exact hmem
      · split
        · exact hmem
        · exact List.mem_cons_of_mem _ hmem

/-! ## Claims C1–C4 -/

theorem contains_true_iff {α : Type} [BEq α] [LawfulBEq α] {l : List α} {a : α} :
    l.contains a = true ↔ a ∈ l := List.elem_iff

theorem contains_false_iff {α : Type} [BEq α] [LawfulBEq α] {l : List α} {a : α} :
    l.contains a = false ↔ a ∉ l := by
  rw [← Bool.not_eq_true, not_iff_not]
  exact contains_true_iff

/-- Shared concrete fixture: the contact table of the spec's Scenario A. -/
def contactA : ParsedFile :=
  { headers := ["email"]
    rows := [[("email", "a@x.com")], [("email", "B@X.com")], [("email", "bad")]]
    emailColumnIndex := 0
    emailColumnName := "email"
    hasMultipleSheets := false }

/-- Shared concrete fixture: the suppression table of the spec's Scenario A. -/
def suppressionA : ParsedFile :=
  { headers := ["email"]
    rows := [[("email", "a@x.com")]]
    emailColumnIndex := 0
    emailColumnName := "email"
    hasMultipleSheets := false }

/-- C1: for every contact table, suppression table, and options value, no
row of `matchAndClean`'s `cleanedRows` has a normalized email that is a
member of the suppression set (the normalized values of the non-empty
cells of the suppression table's email column). -/
theorem cleanedRows_not_in_suppression_set
    (contactList suppressionList : ParsedFile) (options : MatchOptions)
    (row : Row)
    (hrow : row ∈ (matchAndClean contactList suppressionList options).cleanedRows) :
    normalizeEmailOpt (rowGet row contactList.emailColumnName) ∉
      suppressionEmails suppressionList := by
  intro hmem
  have hc := matchGo_cleaned_spec contactList.emailColumnName
    (suppressionEmails suppressionList) options.removeInvalidEmails
    contactList.rows 0 row hrow
  exact contains_false_iff.mp hc hmem

/-- Witness for C1 at Scenario A: the kept row `B@X.com`. -/
theorem cleanedRows_not_in_suppression_set_witness :
    normalizeEmailOpt (rowGet [("email", "B@X.com")] contactA.emailColumnName) ∉
      suppressionEmails suppressionA :=
  cleanedRows_not_in_suppression_set contactA suppressionA ⟨true⟩
    [("email", "B@X.com")] (by decide)

/-- C2: the `MatchResult` stats are consistent:
`totalRows = cleanedCount + suppressedCount + invalidCount`,
`cleanedRows.length = cleanedCount`, and
`removedRows.length = suppressedCount + invalidCount`. -/
theorem matchAndClean_stats_consistent
    (contactList suppressionList : ParsedFile) (options : MatchOptions) :
    (matchAndClean contactList suppressionList options).stats.totalRows =
        (matchAndClean contactList suppressionList options).stats.cleanedCount +
        (matchAndClean contactList suppressionList options).stats.suppressedCount +
        (matchAndClean contactList suppressionList options).stats.invalidCount ∧
      (matchAndClean contactList suppressionList options).cleanedRows.length =
        (matchAndClean contactList suppressionList options).stats.cleanedCount ∧
      (matchAndClean contactList suppressionList options).removedRows.length =
        (matchAndClean contactList suppressionList options).stats.suppressedCount +
        (matchAndClean contactList suppressionList options).stats.invalidCount := by
  obtain ⟨h1, h2⟩ := matchGo_counts contactList.emailColumnName
    (suppressionEmails suppressionList) options.removeInvalidEmails contactList.rows 0
  exact ⟨h1, rfl, h2⟩

/-- C3: `cleanedRows` is a subsequence of the contact rows (each kept row
is an original row record, unchanged, in original order), and the
`rowData` sequence of `removedRows` is likewise a subsequence of the
contact rows, so both partitions preserve the original row order. -/
theorem matchAndClean_partition_sublists
    (contactList suppressionList : ParsedFile) (options : MatchOptions) :
    (matchAndClean contactList suppressionList options).cleanedRows.Sublist
        contactList.rows ∧
      ((matchAndClean contactList suppressionList options).removedRows.map
          RemovedRow.rowData).Sublist contactList.rows :=
  matchGo_sublists contactList.emailColumnName (suppressionEmails suppressionList)
    options.removeInvalidEmails contactList.rows 0

/-- C4: a contact row whose normalized email is in the suppression set is
always removed as `suppressed` (with its row number and raw email),
regardless of the `removeInvalidEmails` option and of syntactic
validity; and the invalid classification is only ever given to rows
whose normalized email is not in the suppression set. -/
theorem suppression_takes_precedence
    (contactList suppressionList : ParsedFile) (options : MatchOptions)
    (j : Nat) (row : Row) (hj : contactList.rows.get? j = some row)
    (hin : normalizeEmailOpt (rowGet row contactList.emailColumnName) ∈
      suppressionEmails suppressionList) :
    (⟨j + 2, rowGet row contactList.emailColumnName, RemovalReason.suppressed, row⟩ :
        RemovedRow) ∈ (matchAndClean contactList suppressionList options).removedRows ∧
      ∀ rr ∈ (matchAndClean contactList suppressionList options).removedRows,
        rr.reason = RemovalReason.invalid →
          normalizeEmailOpt rr.email ∉ suppressionEmails suppressionList := by
  constructor
  · have h := matchGo_suppressed_mem contactList.emailColumnName
      (suppressionEmails suppressionList) options.removeInvalidEmails
      contactList.rows 0 j row hj
      (contains_true_iff.mpr hin)
    simpa using h
  · intro rr hrr hreason hmem
    obtain ⟨j', _, _, _, hcase⟩ := matchGo_removed_spec contactList.emailColumnName
      (suppressionEmails suppressionList) options.removeInvalidEmails
      contactList.rows 0 rr hrr
    rcases hcase with ⟨hs, _⟩ | ⟨_, hc, _, _⟩
    · rw [hreason] at hs; cases hs
    · exact contains_false_iff.mp hc hmem

/-- Witness for C4 at Scenario A: the suppressed row `a@x.com`. -/
theorem suppression_takes_precedence_witness :
    (⟨2, rowGet [("email", "a@x.com")] contactA.emailColumnName,
        RemovalReason.suppressed, [("email", "a@x.com")]⟩ : RemovedRow) ∈
        (matchAndClean contactA suppressionA ⟨true⟩).removedRows ∧
      ∀ rr ∈ (matchAndClean contactA suppressionA ⟨true⟩).removedRows,
        rr.reason = RemovalReason.invalid →
          normalizeEmailOpt rr.email ∉ suppressionEmails suppressionA :=
  suppression_takes_precedence contactA suppressionA ⟨true⟩ 0
    [("email", "a@x.com")] (by decide) (by decide)

/-! ## Claim C5: removed-row numbering -/

theorem parseGrid_ok_fields (headerRow : List String) (dataRows : List (List String))
    (multi : Bool) (pf : ParsedFile)
    (h : parseGrid (headerRow :: dataRows) multi = .ok pf) :
    pf.headers = headerRow.map jsTrim ∧
    pf.rows = (dataRows.filter isKeptRow).map (buildRecord (headerRow.map jsTrim)) := by
  simp only [parseGrid] at h
  split at h
  · cases h
  · split at h
    · cases h
    · split at h
      · cases h
      · cases h
        exact ⟨rfl, rfl⟩

/-- The pipeline (parse, then match) on a contact file whose middle data
row is blank: the parser drops the blank row before the matcher numbers
the rows. -/
def c5Pipeline : MatchResult :=
  match parseGrid [["email"], ["s@x.com"], [""], ["t@x.com"]] false,
        parseGrid [["email"], ["t@x.com"]] false with
  | .ok c, .ok s => matchAndClean c s ⟨false⟩
  | _, _ => ⟨[], [], ⟨0, 0, 0, 0⟩⟩

/-- C5 counterexample: in `c5Pipeline` the sole removed row is the record
built from source data row index 2 (the third data row, hence source
line `2 + 2 = 4` counting the header), yet its `originalRowNumber` is
`3`, because the blank source row was dropped before numbering.  So
`originalRowNumber` is not the 1-based source-file line number. -/
theorem originalRowNumber_counterexample :
    c5Pipeline.removedRows.map (fun rr => (rr.originalRowNumber, rr.rowData)) =
        [(3, [("email", "t@x.com")])] ∧
      [["s@x.com"], [""], ["t@x.com"]].get? 2 = some ["t@x.com"] ∧
      (3 : Nat) ≠ 2 + 2 := by decide

/-- C5 (amended): every removed row's `originalRowNumber` is 2 plus the
row's index in the parsed table's `rows` (the data rows surviving the
blank-row filter); and when every data row of the source grid is
non-blank, this equals the 1-based source-file line number including
the header offset (first data row = 2, data row `j` = `j + 2`). -/
theorem removedRow_numbering :
    (∀ (contactList suppressionList : ParsedFile) (options : MatchOptions)
        (rr : RemovedRow),
        rr ∈ (matchAndClean contactList suppressionList options).removedRows →
        ∃ j, contactList.rows.get? j = some rr.rowData ∧
          rr.originalRowNumber = j + 2) ∧
    (∀ (headerRow : List String) (dataRows : List (List String)) (multi : Bool)
        (pf suppressionList : ParsedFile) (options : MatchOptions) (rr : RemovedRow),
        parseGrid (headerRow :: dataRows) multi = .ok pf →
        dataRows.all isKeptRow = true →
        rr ∈ (matchAndClean pf suppressionList options).removedRows →
        ∃ j d, dataRows.get? j = some d ∧ rr.rowData = buildRecord pf.headers d ∧
          rr.originalRowNumber = j + 2) := by
  constructor
  · intro c s o rr hrr
    obtain ⟨j, hj, hnum, -, -⟩ := matchGo_removed_spec c.emailColumnName
      (suppressionEmails s) o.removeInvalidEmails c.rows 0 rr hrr
    exact ⟨j, hj, by omega⟩
  · intro hr dr multi pf s o rr hok hall hrr
    obtain ⟨hheaders, hrows⟩ := parseGrid_ok_fields hr dr multi pf hok
    obtain ⟨j, hj, hnum, -, -⟩ := matchGo_removed_spec pf.emailColumnName
      (suppressionEmails s) o.removeInvalidEmails pf.rows 0 rr hrr
    rw [hrows, List.filter_eq_self.mpr
      (fun a ha => (List.all_eq_true.mp hall) a ha), List.get?_eq_getElem?,
      List.getElem?_map] at hj
    cases hd : dr.get? j with
    | none => rw [List.get?_eq_getElem?] at hd; rw [hd] at hj; cases hj
    | some d =>
      rw [List.get?_eq_getElem?] at hd
      rw [hd] at hj
      refine ⟨j, d, by rw [List.get?_eq_getElem?]; exact hd, ?_, by omega⟩
      rw [hheaders]
      exact (Option.some.inj hj).symm

/-- Concrete parsed contact table used by the C5 witness. -/
def c5ParsedContact : ParsedFile :=
  { headers := ["email"]
    rows := [[("email", "a@x.com")]]
    emailColumnIndex := 0
    emailColumnName := "email"
    hasMultipleSheets := false }

/-- Witness for C5 (amended) on a blank-row-free source grid. -/
theorem removedRow_numbering_witness :
    ∃ j d, [["a@x.com"]].get? j = some d ∧
      (⟨2, some "a@x.com", RemovalReason.suppressed, [("email", "a@x.com")]⟩ :
          RemovedRow).rowData = buildRecord c5ParsedContact.headers d ∧
      (⟨2, some "a@x.com", RemovalReason.suppressed, [("email", "a@x.com")]⟩ :
          RemovedRow).originalRowNumber = j + 2 :=
  removedRow_numbering.2 ["email"] [["a@x.com"]] false c5ParsedContact
    suppressionA ⟨true⟩ _ (by decide) (by decide) (by decide)

/-! ## Claim C6: email-column inference -/

theorem sepOptChars_iff (pre post cs : List Char) :
    sepOptChars pre post cs = true ↔
      ∃ sep : List Char, sep.length ≤ 1 ∧ sep.all jsDot = true ∧
        cs = pre ++ sep ++ post := by
  unfold sepOptChars
  rw [Bool.or_eq_true, Bool.and_eq_true, Bool.and_eq_true, Bool.and_eq_true]
  constructor
  · rintro (h | ⟨⟨⟨hlen, htake⟩, hdot⟩, hdrop⟩)
    · exact ⟨[], by simp, by simp, by simpa using beq_iff_eq.mp h⟩
    · rw [beq_iff_eq] at hlen
      rw [beq_iff_eq] at htake
      rw [beq_iff_eq] at hdrop
      cases hd : cs.drop pre.length with
      | nil =>
        have hc := congrArg List.length hd
        simp only [List.length_drop, List.length_nil] at hc
        omega
      | cons c rest =>
        have hrest : rest = post := by
          have h1 : (cs.drop pre.length).drop 1 = cs.drop (pre.length + 1) := by
            rw [List.drop_drop, Nat.add_comm]
          rw [hd] at h1
          simpa [hdrop] using h1
        have hcget : cs.getD pre.length '\n' = c := by
          have h0 : (cs.drop pre.length)[0]? = cs[pre.length + 0]? :=
            List.getElem?_drop cs pre.length 0
          rw [hd] at h0
          simp only [List.getElem?_cons_zero, Nat.add_zero] at h0
          simp [List.getD_eq_getElem?_getD, ← h0]
        refine ⟨[c], by simp, ?_, ?_⟩
        · simp only [List.all_cons, List.all_nil, Bool.and_true]
          rw [← hcget]
          exact hdot
        · calc cs = cs.take pre.length ++ cs.drop pre.length :=
              (List.take_append_drop _ _).symm
            _ = pre ++ [c] ++ post := by rw [htake, hd, hrest]; simp
  · rintro ⟨sep, hlen, hdot, rfl⟩
    match sep, hlen, hdot with
    | [], _, _ =>
      left
      simp
    | [c], _, hdotc =>
      right
      refine ⟨⟨⟨?_, ?_⟩, ?_⟩, ?_⟩
      · rw [beq_iff_eq]
        simp only [List.length_append, List.length_cons, List.length_nil]
        omega
      · rw [beq_iff_eq, List.append_assoc]
        exact List.take_left pre _
      · have hcget : (pre ++ [c] ++ post).getD pre.length '\n' = c := by
          rw [List.append_assoc]
          simp only [List.getD_eq_getElem?_getD]
          rw [List.getElem?_append_right (Nat.le_refl _)]
          simp
        rw [hcget]
        simpa using hdotc
      · rw [beq_iff_eq]
        exact List.drop_left' (by simp)

/-- The amended reading of the first inference pass, following the
spec's words with the one forced change: between the two words of a
two-word form, the source regexes (`.?`) accept an arbitrary optional
single separator character other than a line terminator, not only a
space. -/
def canonicalWithSep (cs : List Char) : Prop :=
  cs = "email".data ∨ cs = "e-mail".data ∨
    ∃ sep : List Char, sep.length ≤ 1 ∧ sep.all jsDot = true ∧
      (cs = "email".data ++ sep ++ "address".data ∨
       cs = "e-mail".data ++ sep ++ "address".data ∨
       cs = "subscriber".data ++ sep ++ "email".data ∨
       cs = "contact".data ++ sep ++ "email".data)

theorem patterns_any_iff (cs : List Char) :
    (EMAIL_COLUMN_PATTERNS.any fun p => p cs) = true ↔ canonicalWithSep cs := by
  simp only [EMAIL_COLUMN_PATTERNS, List.any_cons, List.any_nil, Bool.or_false,
    Bool.or_eq_true, beq_iff_eq, sepOptChars_iff, canonicalWithSep]
  constructor
  · rintro (h | (h | h) | ⟨sep, hl, hd, h⟩ | (⟨sep, hl, hd, h⟩ | ⟨sep, hl, hd, h⟩) |
        ⟨sep, hl, hd, h⟩ | ⟨sep, hl, hd, h⟩)
    · exact Or.inl h
    · exact Or.inl h
    · exact Or.inr (Or.inl h)
    · exact Or.inr (Or.inr ⟨sep, hl, hd, Or.inl h⟩)
    · exact Or.inr (Or.inr ⟨sep, hl, hd, Or.inl h⟩)
    · exact Or.inr (Or.inr ⟨sep, hl, hd, Or.inr (Or.inl h)⟩)
    · exact Or.inr (Or.inr ⟨sep, hl, hd, Or.inr (Or.inr (Or.inl h))⟩)
    · exact Or.inr (Or.inr ⟨sep, hl, hd, Or.inr (Or.inr (Or.inr h))⟩)
  · rintro (h | h | ⟨sep, hl, hd, h | h | h | h⟩)
    · exact Or.inl h
    · exact Or.inr (Or.inl (Or.inr h))
    · exact Or.inr (Or.inr (Or.inl ⟨sep, hl, hd, h⟩))
    · exact Or.inr (Or.inr (Or.inr (Or.inl (Or.inr ⟨sep, hl, hd, h⟩))))
    · exact Or.inr (Or.inr (Or.inr (Or.inr (Or.inl ⟨sep, hl, hd, h⟩))))
    · exact Or.inr (Or.inr (Or.inr (Or.inr (Or.inr ⟨sep, hl, hd, h⟩))))

/-- The claim's reading of email-column inference, following its words:
a first pass on exact canonical forms (case-insensitive, after
trimming), then a substring pass, else none. -/
def claimCanonicalForms : List String :=
  ["email", "e-mail", "email address", "e-mail address",
   "subscriber email", "contact email"]

/-- The claim's inference procedure (canonical exact forms in the first
pass); compared against the source's `detectEmailColumn`. -/
def claimDetectEmailColumn (headers : List String) : Option Nat :=
  match headers.findIdx? (fun h => claimCanonicalForms.contains (jsLower (jsTrim h))) with
  | some i => some i
  | none => headers.findIdx? (fun h => containsChars "email".data (lowerChars h.data))

/-- C6 counterexample: on headers `["email_address", "email"]`, the
source's first pass already matches `email_address` (the regex
`^email.?address$` accepts an arbitrary single separator character), so
the code selects index 0, while the claim's first pass (exact canonical
forms with an optional hyphen) skips it and selects index 1. -/
theorem detectEmailColumn_counterexample :
    detectEmailColumn ["email_address", "email"] = some 0 ∧
      claimDetectEmailColumn ["email_address", "email"] = some 1 ∧
      detectEmailColumn ["email_address", "email"] ≠
        claimDetectEmailColumn ["email_address", "email"] := by decide

/-- C6 (amended): inference proceeds in order with first match winning —
a first pass selecting the first header that (case-insensitively, after
trimming) matches one of the canonical forms `email`, `e-mail`,
`email⟨sep⟩address`, `e-mail⟨sep⟩address`, `subscriber⟨sep⟩email`,
`contact⟨sep⟩email` where `⟨sep⟩` is an arbitrary optional single
character other than a line terminator (the regex `.`); then a pass
selecting the first header whose lowercase text contains the substring
`email`; if neither pass matches, `parseFile` fails with
`no_email_column`. -/
theorem emailColumn_inference :
    (∀ h : String,
        (EMAIL_COLUMN_PATTERNS.any fun p => p (lowerChars (trimChars h.data))) = true ↔
          canonicalWithSep (lowerChars (trimChars h.data))) ∧
    (∀ (headerRow : List String) (dataRows : List (List String)) (multi : Bool),
        ((headerRow.map jsTrim).isEmpty ||
            (headerRow.map jsTrim).all (fun h => h == "")) = false →
        dataRows ≠ [] →
        detectEmailColumn (headerRow.map jsTrim) = none →
        ∃ msg, parseGrid (headerRow :: dataRows) multi =
          .err ⟨ParseErrorType.no_email_column, msg⟩) := by
  constructor
  · intro h
    exact patterns_any_iff (lowerChars (trimChars h.data))
  · intro headerRow dataRows multi hne hdr hdetect
    cases dataRows with
    | nil => exact absurd rfl hdr
    | cons d ds =>
      simp only [parseGrid]
      rw [if_neg (by rw [hne]; simp), if_neg (by simp), hdetect]
      exact ⟨_, rfl⟩

/-- Witness for C6 (amended) on headers with no email column. -/
theorem emailColumn_inference_witness :
    ∃ msg, parseGrid [["name"], ["bob"]] false =
      .err ⟨ParseErrorType.no_email_column, msg⟩ :=
  emailColumn_inference.2 ["name"] [["bob"]] false (by decide) (by decide) (by decide)

/-! ## Claim C7: email validation -/

theorem dropWhile_head_false {α : Type} (p : α → Bool) :
    ∀ (l : List α) (a : α) (as : List α), l.dropWhile p = a :: as → p a = false := by
  intro l
  induction l with
  | nil => intro a as h; cases h
  | cons x xs ih =>
    intro a as h
    rw [List.dropWhile_cons] at h
    split at h
    · exact ih a as h
    · rename_i hp
      cases h
      simpa using hp

theorem takeWhile_append_eq {α : Type} (p : α → Bool) :
    ∀ (xs : List α) (a : α) (ys : List α), (∀ x ∈ xs, p x = true) → p a = false →
      (xs ++ a :: ys).takeWhile p = xs := by
  intro xs
  induction xs with
  | nil => intro a ys _ ha; simp [List.takeWhile_cons, ha]
  | cons x xs ih =>
    intro a ys hall ha
    simp only [List.cons_append, List.takeWhile_cons, hall x (List.mem_cons_self x xs),
      if_true]
    rw [ih a ys (fun y hy => hall y (List.mem_cons_of_mem x hy)) ha]

theorem dropWhile_append_eq {α : Type} (p : α → Bool) :
    ∀ (xs : List α) (a : α) (ys : List α), (∀ x ∈ xs, p x = true) → p a = false →
      (xs ++ a :: ys).dropWhile p = a :: ys := by
  intro xs
  induction xs with
  | nil => intro a ys _ ha; simp [List.dropWhile_cons, ha]
  | cons x xs ih =>
    intro a ys hall ha
    simp only [List.cons_append, List.dropWhile_cons, hall x (List.mem_cons_self x xs),
      if_true]
    exact ih a ys (fun y hy => hall y (List.mem_cons_of_mem x hy)) ha

theorem mem_interior_iff (a : Char) (l : List Char) :
    (l.drop 1).dropLast.contains a = true ↔
      ∃ m r, l = m ++ a :: r ∧ m ≠ [] ∧ r ≠ [] := by
  constructor
  · intro h
    have hmem : a ∈ (l.drop 1).dropLast := contains_true_iff.mp h
    obtain ⟨s, t, hst⟩ := List.append_of_mem hmem
    cases l with
    | nil => simp at hst
    | cons c cs =>
      simp only [List.drop_succ_cons, List.drop_zero] at hst
      have hcs : cs ≠ [] := by
        intro hnil
        rw [hnil] at hst
        simp at hst
      have hrec := List.dropLast_concat_getLast hcs
      refine ⟨c :: s, t ++ [cs.getLast hcs], ?_, by simp, by simp⟩
      have hcseq : cs = s ++ a :: (t ++ [cs.getLast hcs]) := by
        conv_lhs => rw [← hrec]
        rw [hst]
        simp
      conv_lhs => rw [hcseq]
      simp
  · rintro ⟨m, r, rfl, hm, hr⟩
    apply contains_true_iff.mpr
    cases m with
    | nil => exact absurd rfl hm
    | cons c ms =>
      rcases List.eq_nil_or_concat r with rfl | ⟨rs, x, rfl⟩
      · exact absurd rfl hr
      · simp only [List.cons_append, List.drop_succ_cons, List.drop_zero,
          List.concat_eq_append]
        have hsh : ms ++ a :: (rs ++ [x]) = (ms ++ a :: rs) ++ [x] := by simp
        rw [hsh, List.dropLast_concat]
        exact List.mem_append_right ms (List.mem_cons_self a rs)

/-- The claim's reading of `isValidEmail`, following its words: false
for empty or whitespace-only input; otherwise true exactly when the
input has exactly one `@`, a non-empty part before it with no
whitespace and no `@`, and after it a non-empty domain part with no
whitespace and no `@` containing at least one dot. -/
def claimIsValidEmail (s : String) : Bool :=
  if s.data.all jsWs then false
  else
    let cs := s.data
    let localPart := cs.takeWhile (fun c => c != '@')
    match cs.dropWhile (fun c => c != '@') with
    | [] => false
    | _ :: domain =>
      cs.count '@' == 1 && !localPart.isEmpty && localPart.all (fun c => !jsWs c) &&
        !domain.isEmpty && domain.all (fun c => !jsWs c && c != '@') &&
        domain.contains '.'

/-- C7 counterexample: `"a@b."` has exactly one `@`, a non-empty local
part, and a non-empty whitespace-free domain containing a dot — the
claim's pattern accepts it — but the code's regex
`^[^\s@]+@[^\s@]+\.[^\s@]+$` requires a character after the dot and
rejects it. -/
theorem isValidEmail_counterexample :
    claimIsValidEmail "a@b." = true ∧ isValidEmail "a@b." = false := by decide

/-- C7 (amended): `isValidEmail` returns true exactly when the *trimmed*
input is non-empty and decomposes as `local ++ "@" ++ m ++ "." ++ r`
with `local`, `m`, `r` non-empty and every character of them neither
whitespace nor `@` — i.e. exactly one `@`, and a dot at an interior
position of the domain.  (Whitespace-only input trims to the empty
string and is rejected by the first conjunct.) -/
theorem isValidEmail_iff (s : String) :
    isValidEmail s = true ↔
      trimChars s.data ≠ [] ∧
        ∃ l m r : List Char, trimChars s.data = l ++ '@' :: (m ++ '.' :: r) ∧
          l ≠ [] ∧ m ≠ [] ∧ r ≠ [] ∧ (l ++ m ++ r).all emailChar = true := by
  unfold isValidEmail
  constructor
  · intro h
    split at h
    · cases h
    · split at h
      · cases h
      · rename_i hlen
        have ht : trimChars s.data ≠ [] := by
          intro hnil
          apply hlen
          show ((jsTrim s).data.length == 0) = true
          have hdata : (jsTrim s).data = trimChars s.data := rfl
          rw [hdata, hnil]
          decide
        refine ⟨ht, ?_⟩
        have hre : matchEmailRegex (trimChars s.data) = true := h
        unfold matchEmailRegex at hre
        cases hdw : (trimChars s.data).dropWhile (fun c => c != '@') with
        | nil => rw [hdw] at hre; cases hre
        | cons hd domain =>
          simp only [hdw, Bool.and_eq_true] at hre
          obtain ⟨⟨⟨⟨h1, h2⟩, h3⟩, h4⟩, h5⟩ := hre
          have hhd : hd = '@' :=
            bne_eq_false_iff_eq.mp (dropWhile_head_false _ _ hd domain hdw)
          obtain ⟨m, r, hmr, hm, hr⟩ := (mem_interior_iff '.' domain).mp h5
          refine ⟨(trimChars s.data).takeWhile (fun c => c != '@'), m, r, ?_, ?_,
            hm, hr, ?_⟩
          · have hsplit := List.takeWhile_append_dropWhile
              (fun c => c != '@') (trimChars s.data)
            rw [hdw, hhd, hmr] at hsplit
            exact hsplit.symm
          · rw [Bool.not_eq_true'] at h1
            exact List.isEmpty_eq_false.mp h1
          · rw [hmr, List.all_append, List.all_cons] at h4
            simp only [Bool.and_eq_true] at h4
            rw [List.all_append, List.all_append, Bool.and_eq_true, Bool.and_eq_true]
            exact ⟨⟨h2, h4.1⟩, h4.2.2⟩
  · rintro ⟨ht, l, m, r, heq, hl, hm, hr, hall⟩
    rw [List.all_append, List.all_append, Bool.and_eq_true, Bool.and_eq_true] at hall
    obtain ⟨⟨hla, hma⟩, hra⟩ := hall
    have hlocal : ∀ x ∈ l, (fun c => c != '@') x = true := by
      intro x hx
      have := List.all_eq_true.mp hla x hx
      unfold emailChar at this
      rw [Bool.and_eq_true] at this
      exact this.2
    have hs : ¬((s == "") = true) := by
      rw [beq_iff_eq]
      intro hnil
      apply ht
      rw [hnil]
      decide
    rw [if_neg hs]
    have hlen : ¬(((jsTrim s).data.length == 0) = true) := by
      rw [beq_iff_eq]
      intro hzero
      apply ht
      have hdata : (jsTrim s).data = trimChars s.data := rfl
      rw [hdata] at hzero
      exact List.eq_nil_of_length_eq_zero hzero
    rw [if_neg hlen]
    show matchEmailRegex (trimChars s.data) = true
    have htake : (trimChars s.data).takeWhile (fun c => c != '@') = l := by
      rw [heq]
      exact takeWhile_append_eq _ l '@' _ hlocal (by decide)
    have hdrop : (trimChars s.data).dropWhile (fun c => c != '@') =
        '@' :: (m ++ '.' :: r) := by
      rw [heq]
      exact dropWhile_append_eq _ l '@' _ hlocal (by decide)
    simp only [matchEmailRegex, hdrop, htake, Bool.and_eq_true]
    refine ⟨⟨⟨⟨?_, hla⟩, ?_⟩, ?_⟩, ?_⟩
    · rw [Bool.not_eq_true', List.isEmpty_eq_false]
      exact hl
    · rw [Bool.not_eq_true', List.isEmpty_eq_false]
      simp
    · rw [List.all_append, List.all_cons, Bool.and_eq_true, Bool.and_eq_true]
      exact ⟨hma, by decide, hra⟩
    · exact (mem_interior_iff '.' (m ++ '.' :: r)).mpr ⟨m, r, rfl, hm, hr⟩

/-! ## Claim C8: identical-file short-circuit -/

theorem sameBytes_eq_iff : ∀ (a b : List Nat), a.length = b.length →
    (sameBytes a b = true ↔ a = b) := by
  intro a
  induction a with
  | nil =>
    intro b h
    cases b with
    | nil => simp [sameBytes]
    | cons y ys => simp at h
  | cons x xs ih =>
    intro b h
    cases b with
    | nil => simp at h
    | cons y ys =>
      simp only [sameBytes, Bool.and_eq_true, beq_iff_eq]
      rw [ih ys (by simpa using h)]
      constructor
      · rintro ⟨rfl, rfl⟩
        rfl
      · intro he
        cases he
        exact ⟨rfl, rfl⟩

theorem detectSameFile_iff (a b : List Nat) : detectSameFile a b = true ↔ a = b := by
  unfold detectSameFile
  split
  · rename_i hne
    rw [bne_iff_ne] at hne
    constructor
    · intro h
      cases h
    · intro h
      exact absurd (congrArg List.length h) hne
  · rename_i heq
    rw [Bool.not_eq_true, bne_eq_false_iff_eq] at heq
    exact sameBytes_eq_iff a b heq

/-- C8: when the two input buffers are byte-for-byte identical (equal
lengths and equal bytes at every position), `processInWorker` settles
with the same-file failure for *every* decoder — the parser is never
consulted; when they differ in length or in at least one byte, the
check passes and the run proceeds to the parsing stage
(`processParsed`). -/
theorem sameFile_short_circuit (input : WorkerInput) :
    ((input.contactBuffer.length = input.suppressionBuffer.length ∧
        ∀ j, input.contactBuffer.get? j = input.suppressionBuffer.get? j) →
      ∀ decode, processInWorker decode input = .failure sameFileMessage) ∧
    ((input.contactBuffer.length ≠ input.suppressionBuffer.length ∨
        ∃ j, input.contactBuffer.get? j ≠ input.suppressionBuffer.get? j) →
      ∀ decode, processInWorker decode input = processParsed decode input) := by
  constructor
  · rintro ⟨hlen, hbytes⟩ decode
    have heq : input.contactBuffer = input.suppressionBuffer := List.ext_get? hbytes
    unfold processInWorker
    rw [if_pos ((detectSameFile_iff _ _).mpr heq)]
  · intro hne decode
    have hneq : input.contactBuffer ≠ input.suppressionBuffer := by
      intro heq
      rcases hne with h | ⟨j, hj⟩
      · exact h (congrArg List.length heq)
      · exact hj (congrArg (fun l => l.get? j) heq)
    unfold processInWorker
    rw [if_neg (fun hc => hneq ((detectSameFile_iff _ _).mp hc))]

/-- Witness for C8: identical one-byte buffers short-circuit; buffers
differing at byte 0 proceed to parsing. -/
theorem sameFile_short_circuit_witness :
    processInWorker (fun _ => DecodeResult.exn)
        ⟨[7], "a.csv", [7], "b.csv", ⟨true, true⟩⟩ = .failure sameFileMessage ∧
      processInWorker (fun _ => DecodeResult.exn)
          ⟨[7], "a.csv", [8], "b.csv", ⟨true, true⟩⟩ =
        processParsed (fun _ => DecodeResult.exn)
          ⟨[7], "a.csv", [8], "b.csv", ⟨true, true⟩⟩ :=
  ⟨(sameFile_short_circuit _).1 ⟨rfl, fun _ => rfl⟩ _,
   (sameFile_short_circuit _).2 (Or.inr ⟨0, by decide⟩) _⟩

/-! ## Claim C9: audit report and archive contents -/

theorem data_append (a b : String) : (a ++ b).data = a.data ++ b.data := rfl

theorem joinWith_cons_ne_empty (sep x : String) (xs : List String) (hx : x ≠ "") :
    joinWith sep (x :: xs) ≠ "" := by
  cases xs with
  | nil => simpa [joinWith] using hx
  | cons y ys =>
    simp only [joinWith]
    intro hcontra
    apply hx
    have hdata := congrArg String.data hcontra
    rw [data_append, data_append] at hdata
    have h0 : ("" : String).data = [] := rfl
    rw [h0] at hdata
    have hx0 : x.data = [] := (List.append_eq_nil.mp (List.append_eq_nil.mp hdata).1).1
    exact String.ext (by rw [hx0, h0])

theorem generateAuditReport_ne_empty (rrs : List RemovedRow) :
    generateAuditReport rrs ≠ "" := by
  show rowsToCSV ["Original Row", "Email", "Removal Reason"]
    (rrs.map (fun row =>
      [("Original Row", toString row.originalRowNumber),
       ("Email", row.email.getD ""),
       ("Removal Reason",
         if row.reason = .suppressed then "Suppressed" else "Invalid Format")])) ≠ ""
  unfold rowsToCSV
  apply joinWith_cons_ne_empty
  decide

theorem createZip_cleaned (c : String) (a : Option String) :
    ∃ x, ("cleaned-list.csv", x) ∈ createZip c a :=
  ⟨c, by simp [createZip]⟩

theorem createZip_report_iff (c : String) (a : Option String) :
    (∃ x, ("rinse-report.csv", x) ∈ createZip c a) ↔ ∃ y, a = some y ∧ y ≠ "" := by
  unfold createZip
  cases a with
  | none => simp
  | some y =>
    by_cases hy : y = ""
    · subst hy
      simp
    · simp [hy]

theorem matchAndClean_removed_length (contactList suppressionList : ParsedFile)
    (options : MatchOptions) :
    (matchAndClean contactList suppressionList options).removedRows.length =
      (matchAndClean contactList suppressionList options).stats.suppressedCount +
        (matchAndClean contactList suppressionList options).stats.invalidCount :=
  (matchGo_counts _ _ _ _ _).2

/-- C9: on a successful run, the archive always has an entry named
`cleaned-list.csv`, and it has an entry named `rinse-report.csv` exactly
when `generateAuditReport` is on and at least one row was removed
(equivalently, the reported `suppressedCount + invalidCount` is
positive) — which is exactly when the audit CSV was built, since the
built audit CSV is never empty. -/
theorem auditReport_zip_presence (decode : List Nat → DecodeResult)
    (input : WorkerInput) (out : WorkerOutput)
    (h : processInWorker decode input = .success out) :
    (∃ c, ("cleaned-list.csv", c) ∈ out.zipEntries) ∧
      ((∃ a, ("rinse-report.csv", a) ∈ out.zipEntries) ↔
        (input.options.generateAuditReport = true ∧
          0 < out.stats.suppressedCount + out.stats.invalidCount)) := by
  unfold processInWorker at h
  split at h
  · cases h
  · unfold processParsed at h
    split at h
    · cases h
    · rename_i contactData hc
      split at h
      · cases h
      · rename_i suppressionData hs
        simp only [WorkerResult.success.injEq] at h
        subst h
        dsimp only
        refine ⟨createZip_cleaned _ _, ?_⟩
        rw [createZip_report_iff]
        constructor
        · rintro ⟨y, hy, hyne⟩
          by_cases hb : (input.options.generateAuditReport &&
              !(matchAndClean contactData suppressionData
                ⟨input.options.removeInvalidEmails⟩).removedRows.isEmpty) = true
          · rw [Bool.and_eq_true, Bool.not_eq_true'] at hb
            refine ⟨hb.1, ?_⟩
            have hlen := matchAndClean_removed_length contactData suppressionData
              ⟨input.options.removeInvalidEmails⟩
            have hne := List.isEmpty_eq_false.mp hb.2
            have hpos : 0 < (matchAndClean contactData suppressionData
                ⟨input.options.removeInvalidEmails⟩).removedRows.length :=
              List.length_pos.mpr hne
            omega
          · rw [if_neg hb] at hy
            cases hy
        · rintro ⟨hgen, hpos⟩
          have hlen := matchAndClean_removed_length contactData suppressionData
            ⟨input.options.removeInvalidEmails⟩
          have hne : (matchAndClean contactData suppressionData
              ⟨input.options.removeInvalidEmails⟩).removedRows ≠ [] := by
            intro hnil
            rw [hnil] at hlen
            simp only [List.length_nil] at hlen
            omega
          have hb : (input.options.generateAuditReport &&
              !(matchAndClean contactData suppressionData
                ⟨input.options.removeInvalidEmails⟩).removedRows.isEmpty) = true := by
            rw [Bool.and_eq_true, Bool.not_eq_true', hgen]
            exact ⟨rfl, List.isEmpty_eq_false.mpr hne⟩
          refine ⟨generateAuditReport (matchAndClean contactData suppressionData
            ⟨input.options.removeInvalidEmails⟩).removedRows, ?_,
            generateAuditReport_ne_empty _⟩
          rw [if_pos hb]

/-- Decoder for the C9 witness: the contact buffer `[0]` decodes to a
one-row contact sheet, anything else to a one-row suppression sheet
matching that contact. -/
def c9Decode : List Nat → DecodeResult := fun b =>
  if b == [0] then DecodeResult.ok [["email"], ["a@x.com"]] false
  else DecodeResult.ok [["email"], ["A@x.com "]] false

/-- Input for the C9 witness. -/
def c9Input : WorkerInput :=
  ⟨[0], "contacts.csv", [1], "klaviyo.csv", ⟨true, true⟩⟩

/-- Expected output of the C9 witness run. -/
def c9Output : WorkerOutput :=
  { zipEntries := [("cleaned-list.csv", "email"),
      ("rinse-report.csv", "Original Row,Email,Removal Reason\n2,a@x.com,Suppressed")]
    stats := ⟨1, 0, 1, 0⟩
    contactListHasMultipleSheets := false
    suppressionListHasMultipleSheets := false }

/-- Witness for C9: a concrete successful run with one suppressed row. -/
theorem auditReport_zip_presence_witness :
    (∃ c, ("cleaned-list.csv", c) ∈ c9Output.zipEntries) ∧
      ((∃ a, ("rinse-report.csv", a) ∈ c9Output.zipEntries) ↔
        (c9Input.options.generateAuditReport = true ∧
          0 < c9Output.stats.suppressedCount + c9Output.stats.invalidCount)) :=
  auditReport_zip_presence c9Decode c9Input c9Output (by decide)

/-! ## Claim C10: empty contact emails versus the suppression set -/

/-- Contact table with a single row whose email cell is empty. -/
def c10Contact : ParsedFile :=
  { headers := ["email"]
    rows := [[("email", "")]]
    emailColumnIndex := 0
    emailColumnName := "email"
    hasMultipleSheets := false }

/-- Suppression table with a single whitespace-only (hence truthy,
non-empty) email cell. -/
def c10Suppression : ParsedFile :=
  { headers := ["email"]
    rows := [[("email", " ")]]
    emailColumnIndex := 0
    emailColumnName := "email"
    hasMultipleSheets := false }

/-- C10 counterexample: the whitespace-only suppression cell `" "` is
non-empty, so it is *not* skipped; it normalizes to `""`, which then
matches the contact row's empty email — the row is classified
`suppressed` and is not kept, even with `removeInvalidEmails` off. -/
theorem emptyEmail_suppressed_counterexample :
    (matchAndClean c10Contact c10Suppression ⟨false⟩).removedRows =
        [⟨2, some "", RemovalReason.suppressed, [("email", "")]⟩] ∧
      (matchAndClean c10Contact c10Suppression ⟨false⟩).cleanedRows = [] ∧
      rowGet [("email", "")] c10Contact.emailColumnName = some "" := by decide

/-- C10 (amended): a contact row with an empty email cell is never
classified `suppressed`, and is kept in `cleanedRows` when
`removeInvalidEmails` is off, *provided* the empty string is not in the
normalized suppression set — i.e. no non-empty suppression email cell
is whitespace-only.  (Genuinely empty suppression cells are indeed
skipped, but a whitespace-only cell survives the skip and normalizes to
the empty string.) -/
theorem emptyEmail_never_suppressed (contactList suppressionList : ParsedFile)
    (options : MatchOptions) (j : Nat) (row : Row)
    (hj : contactList.rows.get? j = some row)
    (hempty : rowGet row contactList.emailColumnName = some "")
    (hnos : "" ∉ suppressionEmails suppressionList) :
    (∀ rr ∈ (matchAndClean contactList suppressionList options).removedRows,
        rr.originalRowNumber = j + 2 → rr.reason ≠ RemovalReason.suppressed) ∧
    (options.removeInvalidEmails = false →
        row ∈ (matchAndClean contactList suppressionList options).cleanedRows) := by
  constructor
  · intro rr hrr hnum hsup
    obtain ⟨j', hj', hnum', hmail, hcase⟩ := matchGo_removed_spec
      contactList.emailColumnName (suppressionEmails suppressionList)
      options.removeInvalidEmails contactList.rows 0 rr hrr
    have hjj : j' = j := by omega
    subst hjj
    rw [hj] at hj'
    obtain rfl : row = rr.rowData := Option.some.inj hj'
    rcases hcase with ⟨-, hcontains⟩ | ⟨hinv, -⟩
    · rw [hmail, hempty] at hcontains
      have hn : normalizeEmailOpt (some "") = "" := by decide
      rw [hn] at hcontains
      exact hnos (contains_true_iff.mp hcontains)
    · rw [hinv] at hsup
      cases hsup
  · intro hinv
    apply matchGo_kept_mem contactList.emailColumnName
      (suppressionEmails suppressionList) options.removeInvalidEmails
      contactList.rows 0 j row hj
    · rw [hempty]
      have hn : normalizeEmailOpt (some "") = "" := by decide
      rw [hn]
      exact contains_false_iff.mpr hnos
    · rw [hinv]
      rfl

/-- Witness for C10 (amended): an empty-email contact row against a
suppression table with no whitespace-only cells. -/
theorem emptyEmail_never_suppressed_witness :
    (∀ rr ∈ (matchAndClean c10Contact suppressionA ⟨false⟩).removedRows,
        rr.originalRowNumber = 0 + 2 → rr.reason ≠ RemovalReason.suppressed) ∧
      ((⟨false⟩ : MatchOptions).removeInvalidEmails = false →
        [("email", "")] ∈ (matchAndClean c10Contact suppressionA ⟨false⟩).cleanedRows) :=
  emptyEmail_never_suppressed c10Contact suppressionA ⟨false⟩ 0 [("email", "")]
    (by decide) (by decide) (by decide)

end RinseList


